import Mathlib

/-!
Verification of the yearn Ultima-IV-to-Minetest conversion pipeline
(`yearn.py`), shallowly embedded in Lean 4.

Python integer semantics: `//` is floor division (`Int.fdiv`) and `%` is
floor-style remainder (`Int.fmod`), which is non-negative for a positive
divisor.  Chunk byte arrays (`bytearray(CHUNK3)`) are modelled as total
functions `Nat → Nat` that are zero everywhere when fresh; storing into a
Python bytearray requires the value to be in `0..255`, which is modelled
separately by `set_block_checked`.
-/

namespace Yearn

/-- `CHUNK = 16` from yearn.py. -/
def CHUNK : Int := 16

/-- `CHUNK3 = CHUNK * CHUNK * CHUNK`. -/
def CHUNK3 : Nat := 16 * 16 * 16

/-- A chunk: the `bytearray(CHUNK3)` of one entry of `World`, as a total
function from local index to stored byte (fresh chunks are all zeros). -/
abbrev Chunk := Nat → Nat

/-- The sparse world map `World = defaultdict(lambda: bytearray(CHUNK3))`:
an association list from chunk key to chunk, at most one entry per key. -/
abbrev Store := List ((Int × Int × Int) × Chunk)

/-- The chunk key `(x//CHUNK, y//CHUNK, z//CHUNK)` computed by `set_block`. -/
def chunkKey (x y z : Int) : Int × Int × Int :=
  (x.fdiv 16, y.fdiv 16, z.fdiv 16)

/-- The local slot `(z%CHUNK)*CHUNK*CHUNK + (y%CHUNK)*CHUNK + (x%CHUNK)`
computed by `set_block` (the remainders are non-negative, so the result is
a natural number below 4096). -/
def localIndex (x y z : Int) : Nat :=
  (z.fmod 16).toNat * 256 + (y.fmod 16).toNat * 16 + (x.fmod 16).toNat

/-- Fetch-or-create of `World[(x//CHUNK,y//CHUNK,z//CHUNK)]`: the existing
chunk if the key is present, otherwise a fresh all-zero bytearray. -/
def getChunk (s : Store) (k : Int × Int × Int) : Chunk :=
  match s.find? (fun kc => kc.1 = k) with
  | some kc => kc.2
  | none => fun _ => 0

/--
`set_block(x, y, z, b)` from yearn.py:
fetches-or-creates the chunk at the key and writes `b` into the local slot.
The updated chunk replaces any previous entry for the key.
-/
def set_block (s : Store) (x y z : Int) (b : Nat) : Store :=
  let k := chunkKey x y z
  let c := getChunk s k
  let i := localIndex x y z
  (k, fun j => if j = i then b else c j) :: s.filter (fun kc => kc.1 ≠ k)

/-- Reading one voxel back out of the sparse store (a never-created chunk
reads as all zeros, exactly as `defaultdict` + zero-initialised bytearray). -/
def get_block (s : Store) (x y z : Int) : Nat :=
  getChunk s (chunkKey x y z) (localIndex x y z)

/-- Python bytearray item assignment accepts only bytes `0..255` and raises
`ValueError` otherwise; `chunk[...] = b` inside `set_block` therefore fails
for `b ≥ 256`.  `none` models that fatal error. -/
def set_block_checked (s : Store) (x y z : Int) (b : Nat) : Option Store :=
  if b < 256 then some (set_block s x y z b) else none

/-- Replaying a list of `set_block` calls, oldest first. -/
def applyWrites (s : Store) : List ((Int × Int × Int) × Nat) → Store
  | [] => s
  | (p, b) :: ws => applyWrites (set_block s p.1 p.2.1 p.2.2 b) ws

lemma fmod16_nonneg (a : Int) : 0 ≤ a.fmod 16 :=
  Int.fmod_nonneg' a (by norm_num)

lemma fmod16_lt (a : Int) : a.fmod 16 < 16 :=
  Int.fmod_lt_of_pos a (by norm_num)

lemma fdiv_fmod_eq (a : Int) : 16 * a.fdiv 16 + a.fmod 16 = a :=
  Int.fdiv_add_fmod a 16

/-- Two positions with the same chunk key and the same local slot are equal. -/
lemma key_index_inj {x y z x' y' z' : Int}
    (hk : chunkKey x y z = chunkKey x' y' z')
    (hi : localIndex x y z = localIndex x' y' z') :
    x = x' ∧ y = y' ∧ z = z' := by
  unfold chunkKey at hk
  unfold localIndex at hi
  obtain ⟨hk1, hk2, hk3⟩ : x.fdiv 16 = x'.fdiv 16 ∧ y.fdiv 16 = y'.fdiv 16 ∧
      z.fdiv 16 = z'.fdiv 16 := by
    simpa [Prod.ext_iff] using hk
  have hx := fdiv_fmod_eq x
  have hx' := fdiv_fmod_eq x'
  have hy := fdiv_fmod_eq y
  have hy' := fdiv_fmod_eq y'
  have hz := fdiv_fmod_eq z
  have hz' := fdiv_fmod_eq z'
  have bx := fmod16_nonneg x
  have bx' := fmod16_nonneg x'
  have by1 := fmod16_nonneg y
  have by1' := fmod16_nonneg y'
  have bz := fmod16_nonneg z
  have bz' := fmod16_nonneg z'
  have cx := fmod16_lt x
  have cx' := fmod16_lt x'
  have cy := fmod16_lt y
  have cy' := fmod16_lt y'
  have cz := fmod16_lt z
  have cz' := fmod16_lt z'
  have tx : ((x.fmod 16).toNat : Int) = x.fmod 16 := Int.toNat_of_nonneg bx
  have tx' : ((x'.fmod 16).toNat : Int) = x'.fmod 16 := Int.toNat_of_nonneg bx'
  have ty : ((y.fmod 16).toNat : Int) = y.fmod 16 := Int.toNat_of_nonneg by1
  have ty' : ((y'.fmod 16).toNat : Int) = y'.fmod 16 := Int.toNat_of_nonneg by1'
  have tz : ((z.fmod 16).toNat : Int) = z.fmod 16 := Int.toNat_of_nonneg bz
  have tz' : ((z'.fmod 16).toNat : Int) = z'.fmod 16 := Int.toNat_of_nonneg bz'
  omega

lemma getChunk_set_same (s : Store) (k : Int × Int × Int) (c : Chunk) :
    getChunk ((k, c) :: s.filter (fun kc => kc.1 ≠ k)) k = c := by
  simp [getChunk, List.find?]

lemma find?_filter_ne (l : Store) (k k' : Int × Int × Int) (h : k' ≠ k) :
    (l.filter (fun kc => kc.1 ≠ k)).find? (fun kc => kc.1 = k')
      = l.find? (fun kc => kc.1 = k') := by
  induction l with
  | nil => rfl
  | cons hd tl ih =>
    by_cases h1 : hd.1 = k
    · have h2 : ¬ hd.1 = k' := fun hh => h (by rw [← hh, h1])
      rw [List.filter_cons_of_neg (by simp [h1]), ih,
        List.find?_cons_of_neg _ (by simp [h2])]
    · rw [List.filter_cons_of_pos (by simp [h1])]
      by_cases h2 : hd.1 = k'
      · rw [List.find?_cons_of_pos _ (by simp [h2]),
          List.find?_cons_of_pos _ (by simp [h2])]
      · rw [List.find?_cons_of_neg _ (by simp [h2]),
          List.find?_cons_of_neg _ (by simp [h2]), ih]

lemma getChunk_set_other (s : Store) (k k' : Int × Int × Int) (c : Chunk)
    (h : k' ≠ k) :
    getChunk ((k, c) :: s.filter (fun kc => kc.1 ≠ k)) k' = getChunk s k' := by
  unfold getChunk
  rw [show ((k, c) :: s.filter (fun kc => kc.1 ≠ k)).find? (fun kc => kc.1 = k')
      = (s.filter (fun kc => kc.1 ≠ k)).find? (fun kc => kc.1 = k') by
    simp [List.find?_cons, Ne.symm h]]
  rw [find?_filter_ne s k k' h]

/-- `get_block` after `set_block` at the same position returns the written byte. -/
lemma get_set_same (s : Store) (x y z : Int) (b : Nat) :
    get_block (set_block s x y z b) x y z = b := by
  unfold get_block set_block
  rw [getChunk_set_same]
  simp

/-- `get_block` after `set_block` at a different position is unchanged. -/
lemma get_set_other (s : Store) (x y z x' y' z' : Int) (b : Nat)
    (h : ¬(x' = x ∧ y' = y ∧ z' = z)) :
    get_block (set_block s x y z b) x' y' z' = get_block s x' y' z' := by
  unfold get_block set_block
  by_cases hk : chunkKey x' y' z' = chunkKey x y z
  · have hi : localIndex x' y' z' ≠ localIndex x y z := by
      intro hi
      exact h (key_index_inj hk hi)
    rw [hk, getChunk_set_same]
    simp [hi, hk]
  · rw [getChunk_set_other _ _ _ _ hk]

/-- A position not among a write list reads as its value before the writes. -/
lemma get_applyWrites_not_written (ws : List ((Int × Int × Int) × Nat))
    (s : Store) (x y z : Int)
    (h : ∀ w ∈ ws, w.1 ≠ (x, y, z)) :
    get_block (applyWrites s ws) x y z = get_block s x y z := by
  induction ws generalizing s with
  | nil => rfl
  | cons w ws ih =>
    rw [applyWrites, ih _ (fun w' hw' => h w' (List.mem_cons_of_mem _ hw'))]
    apply get_set_other
    intro hc
    exact h w (List.mem_cons_self _ _) (by
      obtain ⟨h1, h2, h3⟩ := hc
      obtain ⟨⟨wx, wy, wz⟩, wb⟩ := w
      simp only at h1 h2 h3
      simp [h1, h2, h3])

/-- A fresh store reads 0 everywhere. -/
lemma get_empty (x y z : Int) : get_block [] x y z = 0 := rfl

/-! ## Block type interning (`block_map` / `get_block_byte`) -/

/-- The interning table, a Python dict in insertion order: an association
list from itemstring to id, looked up front-first. -/
abbrev BlockMap := List (String × Nat)

/-- The initial table `block_map = {"air": 0}`. -/
def block_map : BlockMap := [("air", 0)]

/-- `get_block_byte(itemstring)` =
`block_map.setdefault(itemstring, len(block_map))`: the existing id if the
name was seen before, otherwise the name is appended with id = current
table size.  The (possibly grown) table is returned alongside the id. -/
def get_block_byte (m : BlockMap) (itemstring : String) : Nat × BlockMap :=
  match m.lookup itemstring with
  | some v => (v, m)
  | none => (m.length, m ++ [(itemstring, m.length)])

/-- Interning a list of names left to right, returning the ids in order. -/
def internList (m : BlockMap) : List String → List Nat × BlockMap
  | [] => ([], m)
  | s :: ss =>
    let r := get_block_byte m s
    let rs := internList r.2 ss
    (r.1 :: rs.1, rs.2)

lemma lookup_append_of_some {m l : BlockMap} {s : String} {v : Nat}
    (h : m.lookup s = some v) : (m ++ l).lookup s = some v := by
  induction m with
  | nil => simp [List.lookup] at h
  | cons hd tl ih =>
    rw [List.cons_append]
    rw [List.lookup] at h ⊢
    cases hb : (s == hd.1) with
    | true => simpa [hb] using h
    | false =>
      simp only [hb] at h ⊢
      exact ih h

lemma lookup_append_of_none {m : BlockMap} {s : String}
    (h : m.lookup s = none) (l : BlockMap) :
    (m ++ l).lookup s = l.lookup s := by
  induction m with
  | nil => simp
  | cons hd tl ih =>
    rw [List.cons_append]
    rw [List.lookup] at h ⊢
    cases hb : (s == hd.1) with
    | true => simp [hb] at h
    | false =>
      simp only [hb] at h ⊢
      exact ih h

/-- Once a name has an id, `get_block_byte` returns that id forever, no
matter which other names are interned in between. -/
lemma get_block_byte_stable {m : BlockMap} {s : String} {v : Nat}
    (h : m.lookup s = some v) (t : String) :
    (get_block_byte m t).2.lookup s = some v := by
  unfold get_block_byte
  cases ht : m.lookup t with
  | some w => simpa using h
  | none => simpa using lookup_append_of_some h

lemma internList_lookup_stable {m : BlockMap} {s : String} {v : Nat}
    (h : m.lookup s = some v) (names : List String) :
    (internList m names).2.lookup s = some v := by
  induction names generalizing m with
  | nil => simpa [internList]
  | cons t ts ih => exact ih (get_block_byte_stable h t)

/-- Interning a name and immediately interning it again returns the same id. -/
lemma get_block_byte_idem (m : BlockMap) (s : String) :
    (get_block_byte (get_block_byte m s).2 s).1 = (get_block_byte m s).1 := by
  unfold get_block_byte
  cases h : m.lookup s with
  | some v => simp [h]
  | none => simp [lookup_append_of_none h, List.lookup]

lemma get_block_byte_fresh_of_ne {m : BlockMap} {s t : String}
    (hs : m.lookup s = none) (hne : s ≠ t) :
    (get_block_byte m t).2.lookup s = none := by
  unfold get_block_byte
  cases ht : m.lookup t with
  | some w => simpa using hs
  | none =>
    simp only
    rw [lookup_append_of_none hs]
    have hb : (s == t) = false := beq_eq_false_iff_ne.mpr hne
    simp [List.lookup, hb]

/-- Interning a run of fresh pairwise-distinct names hands out the ids
`m.length, m.length + 1, …` in order. -/
lemma internList_fresh_ids (names : List String) (m : BlockMap)
    (hfresh : ∀ s ∈ names, m.lookup s = none) (hnd : names.Nodup) :
    (internList m names).1 = List.range' m.length names.length := by
  induction names generalizing m with
  | nil => simp [internList]
  | cons s ss ih =>
    have hs : m.lookup s = none := hfresh s (List.mem_cons_self _ _)
    have hlen : (get_block_byte m s).2.length = m.length + 1 := by
      unfold get_block_byte
      simp [hs]
    have hid : (get_block_byte m s).1 = m.length := by
      unfold get_block_byte
      simp [hs]
    have hss : ∀ t ∈ ss, (get_block_byte m s).2.lookup t = none := by
      intro t ht
      have hne : t ≠ s := by
        rintro rfl
        exact (List.nodup_cons.mp hnd).1 ht
      exact get_block_byte_fresh_of_ne (hfresh t (List.mem_cons_of_mem _ ht)) hne
    rw [internList]
    simp only [hid]
    rw [ih (get_block_byte m s).2 hss (List.nodup_cons.mp hnd).2, hlen]
    simp [List.range'_succ]

/-! ## Chunk serialization (`u16` / `u32` / `block_to_data` / `block_to_binary`) -/

/-- `u16(n)`: big-endian 16-bit serialization from yearn.py. -/
def u16 (n : Nat) : List Nat := [n >>> 8 &&& 0xFF, n &&& 0xFF]

/-- `u32(n)`: big-endian 32-bit serialization from yearn.py. -/
def u32 (n : Nat) : List Nat :=
  [n >>> 24 &&& 0xFF, n >>> 16 &&& 0xFF, n >>> 8 &&& 0xFF, n &&& 0xFF]

/-- `bytes(k, 'ascii')` for the (ASCII) itemstring `k`. -/
def name_bytes (s : String) : List Nat := s.toList.map Char.toNat

/-- `present_block_map` from `block_to_data`: the entries of the interning
table whose id occurs in this chunk, in table (= insertion) order. -/
def present_block_map (m : BlockMap) (block : List Nat) : BlockMap :=
  m.filter (fun kv => kv.2 ∈ block)

/-- `block_to_data(block)` from yearn.py: the uncompressed payload of one
chunk record.  The source asserts `len(block) == 4096`; a wrong-sized chunk
is the assertion failure `none`. -/
def block_to_data (m : BlockMap) (block : List Nat) : Option (List Nat) :=
  if block.length = 4096 then
    some ([14]                      -- flags: generated, lighting expired, day_night_differs, NOT underground
      ++ u16 0                      -- lighting needs recomputing in all directions
      ++ u32 0xffffffff             -- timestamp
      ++ [0]                        -- mapping version
      ++ u16 (present_block_map m block).length
      ++ (present_block_map m block).flatMap
          (fun kv => u16 kv.2 ++ u16 kv.1.length ++ name_bytes kv.1)
      ++ [2, 2]                     -- content_width, params_width
      ++ block.flatMap u16          -- param0
      ++ List.replicate block.length 0  -- param1
      ++ List.replicate block.length 0  -- param2
      ++ u32 0
      ++ [10]                       -- timer record size
      ++ u16 0)                     -- no timers
  else none

/-- `block_to_binary(block)`: version byte 29 followed by the compressed
payload.  `compress` is the external zstd collaborator, passed in. -/
def block_to_binary (compress : List Nat → List Nat) (m : BlockMap)
    (block : List Nat) : Option (List Nat) :=
  (block_to_data m block).map (fun d => 29 :: compress d)

end Yearn

/-- The chunk-record payload transcribed from the words of claim C1 (spec
§4.5), for the refinement proof: one flags byte marking terrain generated
(8), lighting expired (4) and day/night differs (2) but not underground; a
16-bit zero lighting-expired direction mask; a 32-bit all-ones timestamp; a
mapping section with version byte 0, a 16-bit count of the distinct type
ids actually present in this chunk, and per entry 16-bit id, 16-bit name
length and the name's raw bytes; two content-format-width bytes equal to 2;
4096 16-bit primary ids in the chunk's own order; 4096 + 4096 zero metadata
bytes; a 32-bit zero reserved field; a timer-record-size byte; and a 16-bit
timer count of zero. -/
def SpecC1.record_payload (m : Yearn.BlockMap) (block : List Nat) : List Nat :=
  [8 + 4 + 2]
  ++ Yearn.u16 0
  ++ Yearn.u32 0xffffffff
  ++ [0]
  ++ Yearn.u16 block.dedup.length
  ++ (Yearn.present_block_map m block).flatMap
      (fun kv => Yearn.u16 kv.2 ++ Yearn.u16 kv.1.length ++ Yearn.name_bytes kv.1)
  ++ [2, 2]
  ++ block.flatMap Yearn.u16
  ++ List.replicate 4096 0
  ++ List.replicate 4096 0
  ++ Yearn.u32 0
  ++ [10]
  ++ Yearn.u16 0

namespace Yearn

lemma filter_range_length (n : Nat) (block : List Nat) (h : ∀ b ∈ block, b < n) :
    ((List.range n).filter (fun v => v ∈ block)).length = block.dedup.length := by
  have hnd : ((List.range n).filter (fun v => decide (v ∈ block))).Nodup :=
    (List.nodup_range n).filter _
  rw [← List.toFinset_card_of_nodup hnd, ← List.card_toFinset]
  congr 1
  ext v
  simp only [List.mem_toFinset, List.mem_filter, List.mem_range, decide_eq_true_eq]
  exact ⟨fun hv => hv.2, fun hv => ⟨h v hv, hv⟩⟩

/-- With every chunk byte an id of a well-formed table, the number of table
entries listed in the mapping section is exactly the number of distinct ids
occurring in the chunk. -/
lemma present_block_map_length (m : BlockMap) (block : List Nat)
    (hwf : m.map Prod.snd = List.range m.length)
    (hids : ∀ b ∈ block, b ∈ m.map Prod.snd) :
    (present_block_map m block).length = block.dedup.length := by
  have h2 : (m.filter ((fun v => decide (v ∈ block)) ∘ Prod.snd)).length
      = ((m.map Prod.snd).filter (fun v => decide (v ∈ block))).length := by
    rw [List.filter_map, List.length_map]
  have h1 : present_block_map m block
      = m.filter ((fun v => decide (v ∈ block)) ∘ Prod.snd) := rfl
  rw [h1, h2, hwf]
  apply filter_range_length
  intro b hb
  have hm := hids b hb
  rw [hwf] at hm
  exact List.mem_range.mp hm

end Yearn

namespace SpecC2

/-!
Re-parser for the record layout of spec §4.5, used to state the round-trip
of claim C2: this is the inverse reading of the byte layout, written from
the spec's description of the record. -/

/-- Read one big-endian 16-bit value. -/
def parse_u16 : List Nat → Option (Nat × List Nat)
  | a :: b :: rest => some (a * 256 + b, rest)
  | _ => none

/-- Read `n` raw bytes. -/
def parse_take : Nat → List Nat → Option (List Nat × List Nat)
  | 0, l => some ([], l)
  | _ + 1, [] => none
  | n + 1, a :: l =>
    match parse_take n l with
    | none => none
    | some r => some (a :: r.1, r.2)

/-- Read `n` big-endian 16-bit values. -/
def parse_u16s : Nat → List Nat → Option (List Nat × List Nat)
  | 0, l => some ([], l)
  | n + 1, l =>
    match parse_u16 l with
    | none => none
    | some (v, l1) =>
      match parse_u16s n l1 with
      | none => none
      | some (vs, l2) => some (v :: vs, l2)

/-- Read `n` mapping-section entries (16-bit id, 16-bit name length, the
name's raw bytes), returning `(id, name)` pairs. -/
def parse_entries : Nat → List Nat → Option (List (Nat × String) × List Nat)
  | 0, l => some ([], l)
  | n + 1, l =>
    match parse_u16 l with
    | none => none
    | some (i, l1) =>
      match parse_u16 l1 with
      | none => none
      | some (len, l2) =>
        match parse_take len l2 with
        | none => none
        | some (bs, l3) =>
          match parse_entries n l3 with
          | none => none
          | some (es, l4) => some ((i, String.mk (bs.map Char.ofNat)) :: es, l4)

/-- Parse a whole §4.5 record payload: skip the flags byte, the 16-bit
direction mask and the 32-bit timestamp; require mapping version 0; read
the 16-bit entry count and that many entries; require both
content-format-width bytes to be 2; read the 4096 16-bit primary ids; skip
the two 4096-byte metadata arrays and the 32-bit reserved field; require
the timer-record-size byte and a zero timer count ending the record.
Returns the mapping entries and the 4096-entry id array. -/
def parse_record (l : List Nat) : Option (List (Nat × String) × List Nat) :=
  match parse_take 7 l with
  | none => none
  | some (_, l1) =>
    match l1 with
    | 0 :: l2 =>
      match parse_u16 l2 with
      | none => none
      | some (n, l3) =>
        match parse_entries n l3 with
        | none => none
        | some (es, l4) =>
          match l4 with
          | 2 :: 2 :: l5 =>
            match parse_u16s 4096 l5 with
            | none => none
            | some (ids, l6) =>
              match parse_take 4096 l6 with
              | none => none
              | some (_, l7) =>
                match parse_take 4096 l7 with
                | none => none
                | some (_, l8) =>
                  match parse_take 4 l8 with
                  | none => none
                  | some (_, l9) =>
                    match l9 with
                    | 10 :: l10 =>
                      match parse_u16 l10 with
                      | some (0, []) => some (es, ids)
                      | _ => none
                    | _ => none
          | _ => none
    | _ => none

lemma and255_eq_mod (n : Nat) : n &&& 255 = n % 256 := by
  have h := Nat.and_pow_two_sub_one_eq_mod n 8
  norm_num at h
  exact h

lemma u16_val (n : Nat) (h : n < 65536) :
    (n >>> 8 &&& 255) * 256 + (n &&& 255) = n := by
  have h2 : n >>> 8 = n / 256 := by
    rw [Nat.shiftRight_eq_div_pow]
  rw [h2, and255_eq_mod, and255_eq_mod]
  omega

lemma parse_u16_u16 (n : Nat) (r : List Nat) (h : n < 65536) :
    parse_u16 (Yearn.u16 n ++ r) = some (n, r) := by
  have h1 : parse_u16 (Yearn.u16 n ++ r)
      = some ((n >>> 8 &&& 255) * 256 + (n &&& 255), r) := rfl
  rw [h1, u16_val n h]

lemma parse_take_len (n : Nat) (xs r : List Nat) (hn : xs.length = n) :
    parse_take n (xs ++ r) = some (xs, r) := by
  induction xs generalizing n with
  | nil => subst hn; rfl
  | cons a l ih =>
    subst hn
    rw [List.cons_append, List.length_cons, parse_take, ih l.length rfl]

lemma parse_u16s_len (n : Nat) (xs r : List Nat) (hn : xs.length = n)
    (h : ∀ b ∈ xs, b < 65536) :
    parse_u16s n (xs.flatMap Yearn.u16 ++ r) = some (xs, r) := by
  induction xs generalizing n with
  | nil => subst hn; rfl
  | cons a l ih =>
    subst hn
    rw [List.length_cons, List.flatMap_cons, List.append_assoc, parse_u16s,
      parse_u16_u16 a _ (h a (List.mem_cons_self _ _))]
    dsimp only
    rw [ih l.length rfl (fun b hb => h b (List.mem_cons_of_mem _ hb))]

lemma name_bytes_length (s : String) : (Yearn.name_bytes s).length = s.length := by
  rw [Yearn.name_bytes, List.length_map]
  rfl

lemma name_bytes_roundtrip (s : String) :
    String.mk ((Yearn.name_bytes s).map Char.ofNat) = s := by
  unfold Yearn.name_bytes
  rw [List.map_map]
  have h : (Char.ofNat ∘ Char.toNat) = id := by
    funext c
    simp [Function.comp, Char.ofNat_toNat]
  rw [h, List.map_id, String.toList]

lemma parse_entries_len (n : Nat) (es : Yearn.BlockMap) (r : List Nat)
    (hn : es.length = n)
    (h : ∀ kv ∈ es, kv.2 < 65536 ∧ kv.1.length < 65536) :
    parse_entries n
        (es.flatMap (fun kv =>
          Yearn.u16 kv.2 ++ Yearn.u16 kv.1.length ++ Yearn.name_bytes kv.1) ++ r)
      = some (es.map (fun kv => (kv.2, kv.1)), r) := by
  induction es generalizing n with
  | nil => subst hn; rfl
  | cons kv l ih =>
    subst hn
    obtain ⟨hid, hlen⟩ := h kv (List.mem_cons_self _ _)
    rw [List.length_cons, List.flatMap_cons]
    simp only [List.append_assoc] at ih ⊢
    rw [parse_entries, parse_u16_u16 kv.2 _ hid]
    dsimp only
    rw [parse_u16_u16 kv.1.length _ hlen]
    dsimp only
    rw [parse_take_len kv.1.length (Yearn.name_bytes kv.1) _ (name_bytes_length kv.1)]
    dsimp only
    rw [ih l.length rfl (fun e he => h e (List.mem_cons_of_mem _ he))]
    dsimp only
    rw [List.map_cons, name_bytes_roundtrip kv.1]

/-- The uncompressed record payload of `block_to_data`, written in
right-nested form convenient for parsing (provably equal to the payload
`block_to_data` emits). -/
def record_bytes (m : Yearn.BlockMap) (block : List Nat) : List Nat :=
  [14, 0, 0, 255, 255, 255, 255]
  ++ (0 :: (Yearn.u16 (Yearn.present_block_map m block).length
  ++ ((Yearn.present_block_map m block).flatMap (fun kv =>
        Yearn.u16 kv.2 ++ Yearn.u16 kv.1.length ++ Yearn.name_bytes kv.1)
  ++ (2 :: 2 :: (block.flatMap Yearn.u16
  ++ (List.replicate block.length 0
  ++ (List.replicate block.length 0
  ++ ([0, 0, 0, 0] ++ (10 :: [0, 0])))))))))

lemma block_to_data_eq (m : Yearn.BlockMap) (block : List Nat)
    (hlen : block.length = 4096) :
    Yearn.block_to_data m block = some (record_bytes m block) := by
  have hu0 : Yearn.u16 0 = [0, 0] := rfl
  have huF : Yearn.u32 0xffffffff = [255, 255, 255, 255] := rfl
  have hu32z : Yearn.u32 0 = [0, 0, 0, 0] := rfl
  unfold Yearn.block_to_data record_bytes
  rw [if_pos hlen]
  congr 1
  simp [hu0, huF, hu32z, List.append_assoc]
  rw [List.replicate_add, List.append_assoc]

lemma parse_record_bytes (m : Yearn.BlockMap) (block : List Nat)
    (hlen : block.length = 4096)
    (hbyte : ∀ b ∈ block, b < 256)
    (hm : m.length < 65536)
    (hnames : ∀ kv ∈ m, kv.1.length < 65536) :
    parse_record (record_bytes m block)
      = some ((Yearn.present_block_map m block).map (fun kv => (kv.2, kv.1)),
          block) := by
  have hcount : (Yearn.present_block_map m block).length < 65536 :=
    lt_of_le_of_lt (List.length_filter_le _ m) hm
  have hent : ∀ kv ∈ Yearn.present_block_map m block,
      kv.2 < 65536 ∧ kv.1.length < 65536 := by
    intro kv hkv
    constructor
    · have hb : kv.2 ∈ block := by
        have := List.of_mem_filter hkv
        simpa using this
      exact lt_trans (hbyte kv.2 hb) (by norm_num)
    · exact hnames kv (List.mem_of_mem_filter hkv)
  have hbyte16 : ∀ b ∈ block, b < 65536 :=
    fun b hb => lt_trans (hbyte b hb) (by norm_num)
  unfold record_bytes
  rw [parse_record]
  rw [parse_take_len 7 [14, 0, 0, 255, 255, 255, 255] _ rfl]
  dsimp only
  rw [parse_u16_u16 (Yearn.present_block_map m block).length _ hcount]
  dsimp only
  rw [parse_entries_len (Yearn.present_block_map m block).length
    (Yearn.present_block_map m block) _ rfl hent]
  dsimp only
  rw [parse_u16s_len 4096 block _ hlen hbyte16]
  dsimp only
  rw [parse_take_len 4096 (List.replicate block.length 0) _
    (by rw [List.length_replicate, hlen])]
  dsimp only
  rw [parse_take_len 4096 (List.replicate block.length 0) _
    (by rw [List.length_replicate, hlen])]
  dsimp only
  rw [parse_take_len 4 [0, 0, 0, 0] _ rfl]
  rfl

end SpecC2

/-- **C2.** For every 4096-byte chunk array whose non-zero entries are all
ids present in the (boundedly-sized, ASCII-named) block-type table,
decompressing the serialized record with its first byte removed and parsing
it back through the §4.5 record layout reconstructs the original 4096-entry
voxel id array exactly, and every entry of the mapping section resolves to
the type name originally interned for that id (the pair `(name, id)` is an
entry of the table). -/
theorem C2_roundtrip (compress decompress : List Nat → List Nat)
    (hcd : ∀ l, decompress (compress l) = l)
    (m : Yearn.BlockMap) (block : List Nat)
    (hlen : block.length = 4096)
    (hbyte : ∀ b ∈ block, b < 256)
    (hids : ∀ b ∈ block, b ≠ 0 → b ∈ m.map Prod.snd)
    (hm : m.length < 65536)
    (hnames : ∀ kv ∈ m, kv.1.length < 65536) :
    Yearn.block_to_binary compress m block
        = some (29 :: compress (SpecC2.record_bytes m block)) ∧
    SpecC2.parse_record (decompress (29 :: compress (SpecC2.record_bytes m block)).tail)
        = some ((Yearn.present_block_map m block).map (fun kv => (kv.2, kv.1)),
            block) ∧
    ∀ e ∈ (Yearn.present_block_map m block).map (fun kv => (kv.2, kv.1)),
      (e.2, e.1) ∈ m := by
  refine ⟨?_, ?_, ?_⟩
  · unfold Yearn.block_to_binary
    rw [SpecC2.block_to_data_eq m block hlen]
    rfl
  · rw [List.tail_cons, hcd,
      SpecC2.parse_record_bytes m block hlen hbyte hm hnames]
  · intro e he
    obtain ⟨kv, hkv, rfl⟩ := List.mem_map.mp he
    exact List.mem_of_mem_filter hkv

/-- Witness for C2 with identity compression, the table
`{"air": 0, "default:sand": 1}` and a chunk of 4095 air plus one sand. -/
theorem C2_roundtrip_witness :
    Yearn.block_to_binary (fun l => l) [("air", 0), ("default:sand", 1)]
        (List.replicate 4095 0 ++ [1])
      = some (29 :: SpecC2.record_bytes [("air", 0), ("default:sand", 1)]
          (List.replicate 4095 0 ++ [1])) ∧
    SpecC2.parse_record
        ((29 :: SpecC2.record_bytes [("air", 0), ("default:sand", 1)]
          (List.replicate 4095 0 ++ [1])).tail)
      = some ((Yearn.present_block_map [("air", 0), ("default:sand", 1)]
            (List.replicate 4095 0 ++ [1])).map (fun kv => (kv.2, kv.1)),
          List.replicate 4095 0 ++ [1]) ∧
    ∀ e ∈ (Yearn.present_block_map [("air", 0), ("default:sand", 1)]
          (List.replicate 4095 0 ++ [1])).map (fun kv => (kv.2, kv.1)),
      (e.2, e.1) ∈ ([("air", 0), ("default:sand", 1)] : Yearn.BlockMap) := by
  apply C2_roundtrip (fun l => l) (fun l => l) (fun l => rfl)
  · rw [List.length_append, List.length_replicate, List.length_singleton]
  · intro b hb
    rcases List.mem_append.mp hb with h | h
    · rw [List.eq_of_mem_replicate h]; decide
    · simp only [List.mem_singleton] at h
      rw [h]; decide
  · intro b hb hb0
    rcases List.mem_append.mp hb with h | h
    · exact absurd (List.eq_of_mem_replicate h) hb0
    · simp only [List.mem_singleton] at h
      rw [h]; decide
  · decide
  · decide

/-- **C1.** For every chunk array of exactly 4096 bytes whose entries are
ids of the (well-formed) interning table, serialization produces the
constant version byte 29 followed by the compression of a payload laid out
exactly as claim C1 describes it (`SpecC1.record_payload`), in particular
with the mapping-section count equal to the number of distinct type ids
actually present in this chunk. -/
theorem C1_record_layout (compress : List Nat → List Nat) (m : Yearn.BlockMap)
    (block : List Nat) (hlen : block.length = 4096)
    (hwf : m.map Prod.snd = List.range m.length)
    (hids : ∀ b ∈ block, b ∈ m.map Prod.snd) :
    Yearn.block_to_binary compress m block
      = some (29 :: compress (SpecC1.record_payload m block)) := by
  have hdata : Yearn.block_to_data m block = some (SpecC1.record_payload m block) := by
    unfold Yearn.block_to_data
    rw [if_pos hlen]
    rw [Yearn.present_block_map_length m block hwf hids, hlen]
    rfl
  unfold Yearn.block_to_binary
  rw [hdata]
  rfl

/-- Witness for C1: a 4096-byte chunk of 4095 air voxels and one sand voxel
against the table `{"air": 0, "default:sand": 1}`. -/
theorem C1_record_layout_witness :
    Yearn.block_to_binary (fun l => l) [("air", 0), ("default:sand", 1)]
        (List.replicate 4095 0 ++ [1])
      = some (29 :: SpecC1.record_payload [("air", 0), ("default:sand", 1)]
          (List.replicate 4095 0 ++ [1])) :=
  C1_record_layout (fun l => l) _ _
    (by rw [List.length_append, List.length_replicate, List.length_singleton])
    (by decide)
    (by
      intro b hb
      rcases List.mem_append.mp hb with h | h
      · rw [List.eq_of_mem_replicate h]; decide
      · simp only [List.mem_singleton] at h
        rw [h]; decide)

/-- **C7.** Interning is idempotent and injective: repeated interning of a
name returns the same id as the first interning (even after other names
were interned in between); interning N distinct fresh names into the
initial table yields the N distinct ids `1, 2, …, N`, assigned in strictly
increasing order of first encounter starting at 1; and id 0 stays bound to
the background name `"air"` and is never reassigned. -/
theorem C7_interning (names : List String) (hnd : names.Nodup)
    (hair : "air" ∉ names) :
    (∀ (m : Yearn.BlockMap) (s t : String),
      ((Yearn.get_block_byte (Yearn.get_block_byte m s).2 s).1
          = (Yearn.get_block_byte m s).1) ∧
      (∀ v, m.lookup s = some v →
        (Yearn.get_block_byte m t).2.lookup s = some v)) ∧
    (Yearn.internList Yearn.block_map names).1 = List.range' 1 names.length ∧
    (Yearn.internList Yearn.block_map names).2.lookup "air" = some 0 := by
  refine ⟨fun m s t => ⟨Yearn.get_block_byte_idem m s,
      fun v hv => Yearn.get_block_byte_stable hv t⟩, ?_, ?_⟩
  · have hfresh : ∀ s ∈ names, Yearn.block_map.lookup s = none := by
      intro s hs
      have hne : s ≠ "air" := fun h => hair (h ▸ hs)
      have hb : (s == "air") = false := beq_eq_false_iff_ne.mpr hne
      simp [Yearn.block_map, List.lookup, hb]
    simpa using Yearn.internList_fresh_ids names Yearn.block_map hfresh hnd
  · exact Yearn.internList_lookup_stable (by simp [Yearn.block_map, List.lookup]) names

/-- Witness for C7 on three concrete distinct names. -/
theorem C7_interning_witness :
    (Yearn.internList Yearn.block_map
        ["default:sand", "default:water_source", "default:stone"]).1 = [1, 2, 3] ∧
    (Yearn.internList Yearn.block_map
        ["default:sand", "default:water_source", "default:stone"]).2.lookup "air"
      = some 0 := by
  obtain ⟨-, h2, h3⟩ := C7_interning
    ["default:sand", "default:water_source", "default:stone"]
    (by decide) (by decide)
  exact ⟨by rw [h2]; rfl, h3⟩

/-- The assembly loop body `bb = get_block_byte(block); set_block(x, y, z, bb)`
with the bytearray byte-range check made explicit (`none` = `ValueError`). -/
def Yearn.place_block_checked (m : Yearn.BlockMap) (st : Yearn.Store)
    (x y z : Int) (itemstring : String) : Option (Yearn.BlockMap × Yearn.Store) :=
  let r := Yearn.get_block_byte m itemstring
  (Yearn.set_block_checked st x y z r.1).map (fun s' => (r.2, s'))

/-- **C8.** Interning more than 256 distinct names is a fatal capacity
violation: when the table already holds 256 distinct names and a 257th
distinct name arrives, the interning step hands out id 256, which cannot be
stored as a byte, so the immediately following store into the chunk
bytearray fails and the pipeline aborts rather than proceeding. -/
theorem C8_capacity_fatal (m : Yearn.BlockMap) (hlen : m.length = 256)
    (s : String) (hs : m.lookup s = none) (st : Yearn.Store) (x y z : Int) :
    (Yearn.get_block_byte m s).1 = 256 ∧
    Yearn.place_block_checked m st x y z s = none := by
  have hid : (Yearn.get_block_byte m s).1 = 256 := by
    unfold Yearn.get_block_byte
    simp [hs, hlen]
  refine ⟨hid, ?_⟩
  unfold Yearn.place_block_checked Yearn.set_block_checked
  simp [hid]

set_option maxRecDepth 8192 in
/-- Witness for C8: a concrete 256-entry table and a fresh 257th name. -/
theorem C8_capacity_fatal_witness :
    Yearn.place_block_checked
      ((List.range 256).map (fun i => (String.join (List.replicate i "a"), i)))
      [] 0 0 0 "b" = none := by
  refine (C8_capacity_fatal _ (by simp) "b" (by decide) [] 0 0 0).2

/-- **C6.** For all integer positions `(x, y, z)` and every block id `b` in
`0..255`, reading `(x, y, z)` from the chunk store immediately after
`set(x, y, z, b)` returns `b`; reading any position that was never set
(after replaying an arbitrary list of writes none of which targets it,
starting from the empty store) returns 0; the chunk key is the componentwise
floor division of the position by 16 and the local slot is
`(z mod 16)*256 + (y mod 16)*16 + (x mod 16)`. -/
theorem C6_chunk_store_get_set (x y z : Int) (b : Nat) (hb : b ≤ 255) :
    (∀ s : Yearn.Store, Yearn.get_block (Yearn.set_block s x y z b) x y z = b) ∧
    (∀ ws : List ((Int × Int × Int) × Nat), (∀ w ∈ ws, w.1 ≠ (x, y, z)) →
      Yearn.get_block (Yearn.applyWrites [] ws) x y z = 0) ∧
    Yearn.chunkKey x y z = (x.fdiv 16, y.fdiv 16, z.fdiv 16) ∧
    Yearn.localIndex x y z =
      (z.fmod 16).toNat * 256 + (y.fmod 16).toNat * 16 + (x.fmod 16).toNat := by
  refine ⟨fun s => Yearn.get_set_same s x y z b,
    fun ws hws => ?_, rfl, rfl⟩
  rw [Yearn.get_applyWrites_not_written ws [] x y z hws]
  rfl

/-- Witness for C6 at a concrete position, byte and write list. -/
theorem C6_chunk_store_get_set_witness :
    Yearn.get_block (Yearn.set_block [] 5 (-3) 20 7) 5 (-3) 20 = 7 ∧
    Yearn.get_block (Yearn.applyWrites [] [((1, 2, 3), 9)]) 5 (-3) 20 = 0 := by
  obtain ⟨h1, h2, -, -⟩ := C6_chunk_store_get_set 5 (-3) 20 7 (by norm_num)
  exact ⟨h1 [], h2 [((1, 2, 3), 9)] (by intro w hw; simp at hw; simp [hw])⟩

/-! ## World and town assembly (yearn.py lines 110–190) -/

namespace Yearn

/-- `SCALE = 12` from yearn.py. -/
def SCALE : Nat := 12

/-- Flat index into the Ultima world map used by the assembly loop: the
256×256 grid is stored as an 8×8 row-major array of row-major 32×32
sub-blocks, `(ty//32)*8192 + (tx//32)*1024 + (ty%32)*32 + (tx%32)`. -/
def ultima_index (tx ty : Nat) : Nat :=
  (ty / 32) * 8192 + (tx / 32) * 1024 + (ty % 32) * 32 + (tx % 32)

/-- `blocks_for_tile`: per-tile-id stack generators.  Each generator call
consumes one value `r` of an injected random stream, standing for the
`random.choice` / `random.choices` / `random.randint` draws of the source
(the spec requires the expander's randomness to be an injected seedable
source).  `none` = the tile id has no rule. -/
def blocks_for_tile (r : Nat) (tile : Nat) : Option (List String) :=
  match tile with
  | 0 => some ["default:sand", "default:water_source", "default:water_source"]
  | 1 => some ["default:sand", "default:sand", "default:water_source"]
  | 2 => some ["default:stone", "default:sand", "default:river_water_source"]
  | 3 => some ["default:stone", "default:dirt", "default:dirt_with_grass"]
  | 4 => some ["default:stone", "default:dirt", "default:dirt", "default:dirt_with_grass"]
  | 5 => some (["default:stone", "default:dirt", "default:dirt",
      "default:dirt_with_rainforest_litter"] ++
      [if r % 3 = 2 then "default:junglesapling" else "default:junglegrass"])
  | 6 => some (["default:stone", "default:dirt", "default:gravel",
      "default:dirt", "default:dirt"] ++
      (if r % 16 < 9 then ["default:dirt"]
       else if r % 16 < 14 then ["default:dirt_with_coniferous_litter"]
       else if r % 16 < 15 then ["default:dirt", "default:pine_sapling"]
       else ["default:dirt", "default:aspen_sapling"]))
  | 7 => some (List.replicate (4 + r % 2) "default:stone")
  | 8 => some (List.replicate (8 + r % 5) "default:stone" ++ ["default:snow"])
  | 0x16 => some ["default:cobble"]
  | 0x17 => some ["default:stone", "default:gravel", "default:water_source",
      "air", "default:stone"]
  | 0x1b => some ("default:brick" :: List.replicate 4 "default:ladder_wood")
  | 0x1c => some (List.replicate 2 "default:ladder_wood")
  | 0x3a => some ["default:brick", "air", "air", "air", "default:brick", "default:brick"]
  | 0x3b => some ["default:brick", "air", "air", "air", "default:brick", "default:brick"]
  | 0x37 => some ["default:stone", "default:slab_cobble"]
  | 0x39 => some ["default:stone", "default:cobble"]
  | 0x3D => some (List.replicate 10 "default:diamondblock")
  | 0x3E => some ["default:brick"]
  | 0x46 => some (List.replicate 6 "default:obsidian_block")
  | 0x4C => some (List.replicate (8 + r % 3) "default:lava")
  | 0x6c => some (List.replicate 6 "default:glass")
  | 0x6d => some (List.replicate 6 "default:glass")
  | 0x7F => some (List.replicate 6 "default:brick")
  | _ => none

/-- `default_blocks_for_tile`: the fallback stack for unmapped tile ids. -/
def default_blocks_for_tile : List String :=
  List.replicate 4 "default:goldblock"

/-- One `set_block` call of the assembly phase: target position (in the
minetest x, y, z axes) and the itemstring whose interned byte is stored. -/
abbrev Event := (Int × Int × Int) × String

/-- The writes of `for (oz, block) in enumerate(stack): set_block(x, y0+oz, z, …)`:
stack element `i` goes to height `y0 + i`. -/
def stack_events (x z y0 : Int) (stack : List String) : List Event :=
  stack.enum.map (fun p => ((x, y0 + (p.1 : Int), z), p.2))

/-- The write events of the world assembly loop (yearn.py lines 124–146),
in program order: for every tile `(tx, ty)` of the 256×256 grid, decoded at
`ultima_index`, every column of the `SCALE × SCALE` footprint receives one
fresh expansion of the tile's rule (the default stack when no rule exists)
at `x = tx*SCALE+ox`, heights from 0, `z = 256*SCALE − (ty*SCALE+oy)`.
`rng` indexes the injected random stream by generator call. -/
def world_events (rng : Nat → Nat) (world : Nat → Nat) : List Event :=
  (List.range 256).flatMap (fun ty =>
    (List.range 256).flatMap (fun tx =>
      (List.range SCALE).flatMap (fun ox =>
        (List.range SCALE).flatMap (fun oy =>
          let stack :=
            match blocks_for_tile (rng (((ty * 256 + tx) * SCALE + ox) * SCALE + oy))
                (world (ultima_index tx ty)) with
            | some s => s
            | none => default_blocks_for_tile
          stack_events ((tx : Int) * (SCALE : Int) + (ox : Int))
            (256 * (SCALE : Int) - ((ty : Int) * (SCALE : Int) + (oy : Int)))
            0 stack))))

/-- The per-occurrence unknown-tile records of the world pass: one record
per grid cell whose tile id has no rule (`unknown_tiles[tile] += 1`, once
per `(tx, ty)`). -/
def world_unknowns (world : Nat → Nat) : List Nat :=
  (List.range 256).flatMap (fun ty =>
    (List.range 256).flatMap (fun tx =>
      if (blocks_for_tile 0 (world (ultima_index tx ty))).isSome then []
      else [world (ultima_index tx ty)]))

/-- The write events of `read_town(map_name, x, y, z)` (yearn.py lines
151–165): with `xo = x*SCALE + SCALE//2 − 16` and
`yo = (255−y)*SCALE + SCALE//2 + 16`, each of the 32×32 town tiles
(`tx` outer, `ty` inner) that has a rule is expanded and written at
`(xo+tx, z+oz, yo−ty)`; a tile with no rule is skipped (`continue`). -/
def town_events (rng : Nat → Nat) (town : Nat → Nat) (x y z : Nat) : List Event :=
  let xo : Int := (x : Int) * (SCALE : Int) + (SCALE : Int) / 2 - 16
  let yo : Int := (255 - (y : Int)) * (SCALE : Int) + (SCALE : Int) / 2 + 16
  (List.range 32).flatMap (fun tx =>
    (List.range 32).flatMap (fun ty =>
      match blocks_for_tile (rng (tx * 32 + ty)) (town (ty * 32 + tx)) with
      | some stack => stack_events (xo + (tx : Int)) (yo - (ty : Int)) (z : Int) stack
      | none => []))

/-- The per-occurrence unknown-tile records of one town pass (the same
shared `unknown_tiles` counter, incremented once per town tile with no
rule). -/
def town_unknowns (town : Nat → Nat) : List Nat :=
  (List.range 32).flatMap (fun tx =>
    (List.range 32).flatMap (fun ty =>
      if (blocks_for_tile 0 (town (ty * 32 + tx))).isSome then []
      else [town (ty * 32 + tx)]))

/-- The registry of `read_town` calls (yearn.py lines 174–190):
(name, world-tile-x, world-tile-y, base-height), in call order. -/
def town_registry : List (String × Nat × Nat × Nat) :=
  [("LCB_1", 86, 107, 4), ("LCB_2", 86, 107, 10), ("BRITAIN", 82, 106, 4),
   ("MOONGLOW", 232, 135, 4), ("JHELOM", 36, 222, 4), ("YEW", 58, 43, 4),
   ("MINOC", 159, 20, 4), ("TRINSIC", 106, 184, 4), ("SKARA", 22, 128, 4),
   ("MAGINCIA", 187, 169, 4), ("DEN", 136, 158, 4), ("COVE", 136, 90, 4),
   ("PAWS", 98, 145, 4), ("VESPER", 201, 59, 4), ("LYCAEUM", 218, 107, 4),
   ("EMPATH", 28, 50, 4), ("SERPENT", 146, 241, 4)]

/-- All assembly write events in program order: the full world pass first,
then every town pass in registry order (`towns` gives each town file's
32×32 grid, `rngT` each town pass's injected random stream). -/
def pipeline_events (rng : Nat → Nat) (world : Nat → Nat)
    (rngT : String → Nat → Nat) (towns : String → Nat → Nat) : List Event :=
  world_events rng world ++
    town_registry.flatMap (fun e =>
      town_events (rngT e.1) (towns e.1) e.2.1 e.2.2.1 e.2.2.2)

/-- Applying one assembly write, the loop body
`bb = get_block_byte(block); set_block(x, y, z, bb)`. -/
def apply_event (s : BlockMap × Store) (e : Event) : BlockMap × Store :=
  let r := get_block_byte s.1 e.2
  (r.2, set_block s.2 e.1.1 e.1.2.1 e.1.2.2 r.1)

/-- Replaying assembly write events through the interning table and the
chunk store. -/
def run_events (s : BlockMap × Store) (es : List Event) : BlockMap × Store :=
  es.foldl apply_event s

/-- The itemstring of the last assembly write targeting position `p`. -/
def last_write (es : List Event) (p : Int × Int × Int) : Option String :=
  ((es.filter (fun e => e.1 = p)).getLast?).map Prod.snd

/-- The 4096 bytes of a chunk, as serialized. -/
def chunk_list (c : Chunk) : List Nat :=
  (List.range 4096).map c

end Yearn

namespace Yearn

lemma stack_events_mem (x z y0 : Int) (stack : List String) (i : Nat)
    (hi : i < stack.length) :
    ((x, y0 + (i : Int), z), stack.get ⟨i, hi⟩) ∈ stack_events x z y0 stack := by
  unfold stack_events
  apply List.mem_map.mpr
  refine ⟨(i, stack.get ⟨i, hi⟩), ?_, rfl⟩
  apply List.mem_enum_iff_get?.mpr
  simp [List.get?_eq_get hi]

lemma stack_events_mem0 (x z : Int) (stack : List String) (i : Nat)
    (hi : i < stack.length) :
    ((x, (i : Int), z), stack.get ⟨i, hi⟩) ∈ stack_events x z 0 stack := by
  have h := stack_events_mem x z 0 stack i hi
  simpa using h

/-- Membership of one column write in the world pass: the stack produced for
tile `(tx, ty)` at footprint offset `(ox, oy)` (by its rule, or the default
stack) is written element-by-element at the loop's coordinates. -/
lemma world_events_mem (rng world : Nat → Nat) (tx ty ox oy : Nat)
    (htx : tx < 256) (hty : ty < 256)
    (hox : ox < SCALE) (hoy : oy < SCALE) (stack : List String)
    (hstack :
      blocks_for_tile
          (rng (((ty * 256 + tx) * SCALE + ox) * SCALE + oy))
          (world (ultima_index tx ty)) = some stack
      ∨ (blocks_for_tile
          (rng (((ty * 256 + tx) * SCALE + ox) * SCALE + oy))
          (world (ultima_index tx ty)) = none
         ∧ stack = default_blocks_for_tile)) :
    ∀ i (hi : i < stack.length),
      ((((tx : Int) * SCALE + (ox : Int), (i : Int),
          256 * (SCALE : Int) - ((ty : Int) * SCALE + (oy : Int)))),
        stack.get ⟨i, hi⟩) ∈ world_events rng world := by
  intro i hi
  unfold world_events
  apply List.mem_flatMap.mpr
  refine ⟨ty, List.mem_range.mpr hty, ?_⟩
  apply List.mem_flatMap.mpr
  refine ⟨tx, List.mem_range.mpr htx, ?_⟩
  apply List.mem_flatMap.mpr
  refine ⟨ox, List.mem_range.mpr hox, ?_⟩
  apply List.mem_flatMap.mpr
  refine ⟨oy, List.mem_range.mpr hoy, ?_⟩
  dsimp only
  rcases hstack with hrule | ⟨hrule, hdef⟩
  · rw [hrule]
    exact stack_events_mem0 _ _ stack i hi
  · rw [hrule]
    subst hdef
    exact stack_events_mem0 _ _ _ i hi

end Yearn

/-- **C3.** For every world tile coordinate `(tx, ty)` with both in
`0..255`, the assembly pass decodes the tile id at flat index
`(ty//32)*8192 + (tx//32)*1024 + (ty%32)*32 + (tx%32)` of the world grid,
expands it into a voxel stack (by its rule, or the default stack when no
rule exists), and for every offset `(ox, oy)` in the `SCALE × SCALE`
footprint writes stack element `i` at `x = tx*SCALE + ox`, height `y = i`
starting at voxel height 0, and `z = 256*SCALE − (ty*SCALE + oy)`,
inverting the legacy grid's row order onto the engine's Z axis. -/
theorem C3_world_assembly (rng world : Nat → Nat) (tx ty ox oy : Nat)
    (htx : tx < 256) (hty : ty < 256)
    (hox : ox < Yearn.SCALE) (hoy : oy < Yearn.SCALE) (stack : List String)
    (hstack :
      Yearn.blocks_for_tile
          (rng (((ty * 256 + tx) * Yearn.SCALE + ox) * Yearn.SCALE + oy))
          (world ((ty / 32) * 8192 + (tx / 32) * 1024 + (ty % 32) * 32 + (tx % 32)))
        = some stack
      ∨ (Yearn.blocks_for_tile
          (rng (((ty * 256 + tx) * Yearn.SCALE + ox) * Yearn.SCALE + oy))
          (world ((ty / 32) * 8192 + (tx / 32) * 1024 + (ty % 32) * 32 + (tx % 32)))
        = none ∧ stack = Yearn.default_blocks_for_tile)) :
    ∀ i (hi : i < stack.length),
      ((((tx : Int) * Yearn.SCALE + (ox : Int), (i : Int),
          256 * (Yearn.SCALE : Int) - ((ty : Int) * Yearn.SCALE + (oy : Int)))),
        stack.get ⟨i, hi⟩) ∈ Yearn.world_events rng world :=
  Yearn.world_events_mem rng world tx ty ox oy htx hty hox hoy stack hstack

/-- Witness for C3: an all-water world (tile 0), tile (0,0), offset (0,0),
stack element 0. -/
theorem C3_world_assembly_witness :
    ((((0 : Int), (0 : Int), (3072 : Int))), "default:sand")
      ∈ Yearn.world_events (fun _ => 0) (fun _ => 0) := by
  have h := C3_world_assembly (fun _ => 0) (fun _ => 0) 0 0 0 0
    (by norm_num) (by norm_num) (by norm_num [Yearn.SCALE]) (by norm_num [Yearn.SCALE])
    ["default:sand", "default:water_source", "default:water_source"]
    (Or.inl rfl) 0 (by norm_num)
  simpa using h

namespace Yearn

lemma get_block_byte_lookup_self (m : BlockMap) (nm : String) :
    (get_block_byte m nm).2.lookup nm = some (get_block_byte m nm).1 := by
  unfold get_block_byte
  cases h : m.lookup nm with
  | some v => simpa using h
  | none =>
    simp only
    rw [lookup_append_of_none h]
    simp [List.lookup]

lemma run_events_cons (s : BlockMap × Store) (e : Event) (es : List Event) :
    run_events s (e :: es) = run_events (apply_event s e) es := rfl

lemma run_lookup_stable {nm : String} {v : Nat} (es : List Event)
    (s : BlockMap × Store) (h : s.1.lookup nm = some v) :
    (run_events s es).1.lookup nm = some v := by
  induction es generalizing s with
  | nil => simpa [run_events] using h
  | cons e es ih =>
    rw [run_events_cons]
    exact ih (apply_event s e) (get_block_byte_stable h e.2)

lemma run_get_untouched (es : List Event) (s : BlockMap × Store)
    (p : Int × Int × Int) (h : ∀ e ∈ es, e.1 ≠ p) :
    get_block (run_events s es).2 p.1 p.2.1 p.2.2
      = get_block s.2 p.1 p.2.1 p.2.2 := by
  induction es generalizing s with
  | nil => rfl
  | cons e es ih =>
    rw [run_events_cons, ih _ (fun e' he' => h e' (List.mem_cons_of_mem _ he'))]
    apply get_set_other
    intro hc
    apply h e (List.mem_cons_self _ _)
    obtain ⟨⟨ex, ey, ez⟩, enm⟩ := e
    obtain ⟨px, py, pz⟩ := p
    simp only at hc
    obtain ⟨h1, h2, h3⟩ := hc
    simp [h1, h2, h3]

lemma last_write_cons_of_later (e : Event) (es : List Event)
    (p : Int × Int × Int) (hne : es.filter (fun e => e.1 = p) ≠ []) :
    last_write (e :: es) p = last_write es p := by
  unfold last_write
  by_cases he : e.1 = p
  · rw [List.filter_cons_of_pos (by simp [he])]
    obtain ⟨b, l, hbl⟩ := List.exists_cons_of_ne_nil hne
    rw [hbl, List.getLast?_cons_cons]
  · rw [List.filter_cons_of_neg (by simp [he])]

/-- The final store value at a position written by the event list is the
interned id (under the final, monotonically-grown table) of the itemstring
of the LAST write targeting that position: later writes overwrite earlier
ones. -/
lemma run_last_write (es : List Event) (s : BlockMap × Store)
    (p : Int × Int × Int) (nm : String) (h : last_write es p = some nm) :
    ∃ v, (run_events s es).1.lookup nm = some v ∧
      get_block (run_events s es).2 p.1 p.2.1 p.2.2 = v := by
  induction es generalizing s with
  | nil => simp [last_write] at h
  | cons e es ih =>
    by_cases hes : es.filter (fun e => e.1 = p) = []
    · have hnone : ∀ e' ∈ es, e'.1 ≠ p := by
        intro e' he' hp
        have hmem : e' ∈ es.filter (fun e => e.1 = p) :=
          List.mem_filter.mpr ⟨he', by simp [hp]⟩
        rw [hes] at hmem
        simp at hmem
      by_cases he : e.1 = p
      · have hnm : e.2 = nm := by
          unfold last_write at h
          rw [List.filter_cons_of_pos (by simp [he]), hes] at h
          simpa using h
        refine ⟨(get_block_byte s.1 e.2).1, ?_, ?_⟩
        · rw [run_events_cons]
          apply run_lookup_stable
          rw [← hnm]
          exact get_block_byte_lookup_self s.1 e.2
        · rw [run_events_cons, run_get_untouched es _ p hnone]
          subst he
          exact get_set_same s.2 e.1.1 e.1.2.1 e.1.2.2 _
      · unfold last_write at h
        rw [List.filter_cons_of_neg (by simp [he]), hes] at h
        simp at h
    · rw [run_events_cons]
      apply ih (apply_event s e)
      rw [← last_write_cons_of_later e es p hes]
      exact h

/-- A last write in the second (later) part of an event sequence is the
last write of the whole sequence: earlier writes cannot shadow it. -/
lemma last_write_append (es1 es2 : List Event) (p : Int × Int × Int)
    (nm : String) (h : last_write es2 p = some nm) :
    last_write (es1 ++ es2) p = some nm := by
  unfold last_write at h ⊢
  rw [List.filter_append, List.getLast?_append]
  cases hg : (es2.filter (fun e => e.1 = p)).getLast? with
  | none => rw [hg] at h; simp at h
  | some a =>
    rw [hg] at h
    simpa using h

end Yearn

/-- **C4.** For every registered town entry (name, world-tile-x,
world-tile-y, base-height) and every town tile with a rule, the tile's
expanded stack is written at voxel height base-height plus the stack
offset, at a position translated into world voxel coordinates by the same
scale factor `SCALE` used for the world grid; the pipeline writes all town
events after the full world pass, and any position whose last town write is
itemstring `str` finally holds the interned id of `str` — town voxels
overwrite world voxels for the underlying world tiles. -/
theorem C4_towns_overlay (rng : Nat → Nat) (world : Nat → Nat)
    (rngT : String → Nat → Nat) (towns : String → Nat → Nat)
    (nm : String) (xw yw bh : Nat)
    (hmem : (nm, xw, yw, bh) ∈ Yearn.town_registry)
    (tx ty : Nat) (htx : tx < 32) (hty : ty < 32) (stack : List String)
    (hrule : Yearn.blocks_for_tile (rngT nm (tx * 32 + ty))
        (towns nm (ty * 32 + tx)) = some stack) :
    (∀ i (hi : i < stack.length),
      ((((xw : Int) * Yearn.SCALE + (Yearn.SCALE : Int) / 2 - 16 + (tx : Int),
          (bh : Int) + (i : Int),
          (255 - (yw : Int)) * Yearn.SCALE + (Yearn.SCALE : Int) / 2 + 16 - (ty : Int))),
        stack.get ⟨i, hi⟩)
        ∈ Yearn.town_events (rngT nm) (towns nm) xw yw bh) ∧
    (Yearn.pipeline_events rng world rngT towns
      = Yearn.world_events rng world ++
          Yearn.town_registry.flatMap (fun e =>
            Yearn.town_events (rngT e.1) (towns e.1) e.2.1 e.2.2.1 e.2.2.2)) ∧
    (∀ (s : Yearn.BlockMap × Yearn.Store) (p : Int × Int × Int) (str : String),
      Yearn.last_write
          (Yearn.town_registry.flatMap (fun e =>
            Yearn.town_events (rngT e.1) (towns e.1) e.2.1 e.2.2.1 e.2.2.2)) p
        = some str →
      Yearn.last_write (Yearn.pipeline_events rng world rngT towns) p = some str ∧
      ∃ v, (Yearn.run_events s (Yearn.pipeline_events rng world rngT towns)).1.lookup str
            = some v ∧
        Yearn.get_block
            (Yearn.run_events s (Yearn.pipeline_events rng world rngT towns)).2
            p.1 p.2.1 p.2.2 = v) := by
  refine ⟨?_, rfl, ?_⟩
  · intro i hi
    unfold Yearn.town_events
    dsimp only
    apply List.mem_flatMap.mpr
    refine ⟨tx, List.mem_range.mpr htx, ?_⟩
    apply List.mem_flatMap.mpr
    refine ⟨ty, List.mem_range.mpr hty, ?_⟩
    rw [hrule]
    exact Yearn.stack_events_mem _ _ _ stack i hi
  · intro s p str hlast
    have hall : Yearn.last_write (Yearn.pipeline_events rng world rngT towns) p
        = some str :=
      Yearn.last_write_append _ _ p str hlast
    exact ⟨hall, Yearn.run_last_write _ s p str hall⟩

/-- Witness for C4: the LCB_1 town entry, an all-water town grid, tile
(0, 0), checking also the overwrite conclusion at a concrete position. -/
theorem C4_towns_overlay_witness :
    (∀ i (hi : i <
        (["default:sand", "default:water_source", "default:water_source"] : List String).length),
      ((86 * (Yearn.SCALE : Int) + (Yearn.SCALE : Int) / 2 - 16 + 0,
          4 + (i : Int),
          (255 - 107) * (Yearn.SCALE : Int) + (Yearn.SCALE : Int) / 2 + 16 - 0),
        (["default:sand", "default:water_source", "default:water_source"] : List String).get
          ⟨i, hi⟩)
        ∈ Yearn.town_events (fun _ => 0) (fun _ => 0) 86 107 4) ∧
    (Yearn.pipeline_events (fun _ => 0) (fun _ => 0) (fun _ _ => 0) (fun _ _ => 0)
      = Yearn.world_events (fun _ => 0) (fun _ => 0) ++
          Yearn.town_registry.flatMap (fun e =>
            Yearn.town_events (fun _ => 0) (fun _ => 0) e.2.1 e.2.2.1 e.2.2.2)) ∧
    (∀ (s : Yearn.BlockMap × Yearn.Store) (p : Int × Int × Int) (str : String),
      Yearn.last_write
          (Yearn.town_registry.flatMap (fun e =>
            Yearn.town_events (fun _ => 0) (fun _ => 0) e.2.1 e.2.2.1 e.2.2.2)) p
        = some str →
      Yearn.last_write
          (Yearn.pipeline_events (fun _ => 0) (fun _ => 0) (fun _ _ => 0) (fun _ _ => 0)) p
        = some str ∧
      ∃ v, (Yearn.run_events s
            (Yearn.pipeline_events (fun _ => 0) (fun _ => 0) (fun _ _ => 0)
              (fun _ _ => 0))).1.lookup str = some v ∧
        Yearn.get_block (Yearn.run_events s
            (Yearn.pipeline_events (fun _ => 0) (fun _ => 0) (fun _ _ => 0)
              (fun _ _ => 0))).2 p.1 p.2.1 p.2.2 = v) :=
  C4_towns_overlay (fun _ => 0) (fun _ => 0) (fun _ _ => 0) (fun _ _ => 0)
    "LCB_1" 86 107 4 (by decide) 0 0 (by norm_num) (by norm_num)
    ["default:sand", "default:water_source", "default:water_source"] rfl

namespace Yearn

lemma count_flatMap_congr (l : List Nat) (f g : Nat → List Nat) (b : Nat)
    (h : ∀ a ∈ l, (f a).count b = (g a).count b) :
    (l.flatMap f).count b = (l.flatMap g).count b := by
  induction l with
  | nil => rfl
  | cons a l ih =>
    rw [List.flatMap_cons, List.flatMap_cons, List.count_append, List.count_append,
      h a (List.mem_cons_self _ _), ih (fun a ha => h a (List.mem_cons_of_mem _ ha))]

lemma unknown_cell_count (c : Bool) (w t : Nat) (h : w = t → c = false) :
    ((if c then ([] : List Nat) else [w]).count t) = ([w] : List Nat).count t := by
  by_cases hw : w = t
  · rw [h hw]
    simp
  · cases c with
    | false => rfl
    | true =>
      simp [List.count_cons, List.count_nil, hw]

end Yearn

set_option maxRecDepth 10000 in
/-- **C5 counterexample.** The claim fails on the code for town passes: for
the concrete town grid filled with the unmapped tile id 255 (placed as town
LCB_1 at (86, 107) with base height 4), the town pass emits NO write events
at all, the per-occurrence unknown records are all 1024 cells, the default
stack expands to four goldblock voxels — yet the voxel column of, e.g.,
town tile (0,0) (base position (1022, 4, 1798)) still reads 0 (air) after
the pass, not the default stack's expansion. -/
theorem C5_counterexample :
    Yearn.town_events (fun _ => 0) (fun _ => 255) 86 107 4 = [] ∧
    Yearn.town_unknowns (fun _ => 255) = List.replicate 1024 255 ∧
    Yearn.default_blocks_for_tile =
      ["default:goldblock", "default:goldblock", "default:goldblock",
        "default:goldblock"] ∧
    Yearn.get_block
        (Yearn.run_events (Yearn.block_map, [])
          (Yearn.town_events (fun _ => 0) (fun _ => 255) 86 107 4)).2
        1022 4 1798 = 0 := by
  refine ⟨by decide, by decide, rfl, ?_⟩
  rw [show Yearn.town_events (fun _ => 0) (fun _ => 255) 86 107 4 = [] from by decide]
  rfl

/-- **C5 amended.** Unknown tile handling is non-fatal in both passes and
increments the (shared) per-id unknown-tile counter by exactly 1 per
occurrence in both the world pass and every town pass; but the passes then
differ: in the world pass every voxel column of an unknown tile equals the
expansion of the configured default stack, while in a town pass an unknown
tile is skipped and writes no voxels (every town write event comes from a
tile that has a rule). -/
theorem C5_unknown_tiles (world town : Nat → Nat) (rng rngT : Nat → Nat)
    (x y h t : Nat) (hnorule : ∀ r, Yearn.blocks_for_tile r t = none) :
    (Yearn.world_unknowns world).count t
      = ((List.range 256).flatMap (fun ty => (List.range 256).flatMap (fun tx =>
          [world (Yearn.ultima_index tx ty)]))).count t ∧
    (Yearn.town_unknowns town).count t
      = ((List.range 32).flatMap (fun tx => (List.range 32).flatMap (fun ty =>
          [town (ty * 32 + tx)]))).count t ∧
    (∀ tx ty ox oy : Nat, tx < 256 → ty < 256 →
      ox < Yearn.SCALE → oy < Yearn.SCALE →
      world (Yearn.ultima_index tx ty) = t →
      ∀ i (hi : i < Yearn.default_blocks_for_tile.length),
        ((((tx : Int) * Yearn.SCALE + (ox : Int), (i : Int),
            256 * (Yearn.SCALE : Int) - ((ty : Int) * Yearn.SCALE + (oy : Int)))),
          Yearn.default_blocks_for_tile.get ⟨i, hi⟩)
          ∈ Yearn.world_events rng world) ∧
    (∀ e ∈ Yearn.town_events rngT town x y h, ∃ tx ty : Nat, tx < 32 ∧ ty < 32 ∧
      (Yearn.blocks_for_tile (rngT (tx * 32 + ty)) (town (ty * 32 + tx))).isSome) := by
  refine ⟨?_, ?_, ?_, ?_⟩
  · unfold Yearn.world_unknowns
    apply Yearn.count_flatMap_congr
    intro ty hty
    apply Yearn.count_flatMap_congr
    intro tx htx
    apply Yearn.unknown_cell_count
    intro hw
    rw [hw, hnorule 0]
    rfl
  · unfold Yearn.town_unknowns
    apply Yearn.count_flatMap_congr
    intro tx htx
    apply Yearn.count_flatMap_congr
    intro ty hty
    apply Yearn.unknown_cell_count
    intro hw
    rw [hw, hnorule 0]
    rfl
  · intro tx ty ox oy htx hty hox hoy hw i hi
    apply Yearn.world_events_mem rng world tx ty ox oy htx hty hox hoy
      Yearn.default_blocks_for_tile (Or.inr ⟨by rw [hw, hnorule], rfl⟩) i hi
  · intro e he
    unfold Yearn.town_events at he
    dsimp only at he
    obtain ⟨tx, htx, he⟩ := List.mem_flatMap.mp he
    obtain ⟨ty, hty, he⟩ := List.mem_flatMap.mp he
    refine ⟨tx, ty, List.mem_range.mp htx, List.mem_range.mp hty, ?_⟩
    cases hrule : Yearn.blocks_for_tile (rngT (tx * 32 + ty)) (town (ty * 32 + tx)) with
    | none =>
      rw [hrule] at he
      simp at he
    | some stack => rfl

/-- Witness for C5 amended: tile id 255 (no rule), an all-255 world and
town. -/
theorem C5_unknown_tiles_witness :
    (Yearn.world_unknowns (fun _ => 255)).count 255
      = ((List.range 256).flatMap (fun ty => (List.range 256).flatMap (fun tx =>
          [(fun _ => 255) (Yearn.ultima_index tx ty)]))).count 255 ∧
    (Yearn.town_unknowns (fun _ => 255)).count 255
      = ((List.range 32).flatMap (fun tx => (List.range 32).flatMap (fun ty =>
          [(fun _ => 255) (ty * 32 + tx)]))).count 255 ∧
    (∀ tx ty ox oy : Nat, tx < 256 → ty < 256 →
      ox < Yearn.SCALE → oy < Yearn.SCALE →
      (fun _ => 255) (Yearn.ultima_index tx ty) = 255 →
      ∀ i (hi : i < Yearn.default_blocks_for_tile.length),
        ((((tx : Int) * Yearn.SCALE + (ox : Int), (i : Int),
            256 * (Yearn.SCALE : Int) - ((ty : Int) * Yearn.SCALE + (oy : Int)))),
          Yearn.default_blocks_for_tile.get ⟨i, hi⟩)
          ∈ Yearn.world_events (fun _ => 0) (fun _ => 255)) ∧
    (∀ e ∈ Yearn.town_events (fun _ => 0) (fun _ => 255) 86 107 4,
      ∃ tx ty : Nat, tx < 32 ∧ ty < 32 ∧
        (Yearn.blocks_for_tile ((fun _ => (0 : Nat)) (tx * 32 + ty))
          ((fun _ => (255 : Nat)) (ty * 32 + tx))).isSome) :=
  C5_unknown_tiles (fun _ => 255) (fun _ => 255) (fun _ => 0) (fun _ => 0)
    86 107 4 255 (fun r => rfl)

namespace Yearn

lemma mem_of_lookup {m : BlockMap} {s : String} {v : Nat}
    (h : m.lookup s = some v) : (s, v) ∈ m := by
  induction m with
  | nil => simp [List.lookup] at h
  | cons hd tl ih =>
    rw [List.lookup] at h
    cases hb : (s == hd.1) with
    | true =>
      have hs : s = hd.1 := eq_of_beq hb
      simp only [hb] at h
      have hv : hd.2 = v := by simpa using h
      have hpair : (s, v) = hd := by rw [hs, ← hv]
      rw [hpair]
      exact List.mem_cons_self _ _
    | false =>
      simp only [hb] at h
      exact List.mem_cons_of_mem _ (ih h)

lemma get_block_byte_val_mem (m : BlockMap) (nm : String) :
    (get_block_byte m nm).1 ∈ (get_block_byte m nm).2.map Prod.snd :=
  List.mem_map.mpr ⟨(nm, (get_block_byte m nm).1),
    mem_of_lookup (get_block_byte_lookup_self m nm), rfl⟩

lemma get_block_byte_vals_mono {m : BlockMap} {v : Nat}
    (h : v ∈ m.map Prod.snd) (nm : String) :
    v ∈ (get_block_byte m nm).2.map Prod.snd := by
  unfold get_block_byte
  cases hl : m.lookup nm with
  | some w => simpa using h
  | none =>
    simp only [List.map_append]
    exact List.mem_append_left _ h

lemma get_block_byte_wf {m : BlockMap}
    (h : m.map Prod.snd = List.range m.length) (nm : String) :
    (get_block_byte m nm).2.map Prod.snd
      = List.range (get_block_byte m nm).2.length := by
  unfold get_block_byte
  cases hl : m.lookup nm with
  | some w => simpa using h
  | none =>
    simp only [List.map_append, List.length_append]
    rw [h]
    simp [List.range_succ]

/-- Every non-zero byte held in the store is a value of the table. -/
def store_ok (m : BlockMap) (st : Store) : Prop :=
  ∀ kc ∈ st, ∀ i : Nat, kc.2 i ≠ 0 → kc.2 i ∈ m.map Prod.snd

lemma store_ok_empty (m : BlockMap) : store_ok m [] := by
  intro kc hkc
  simp at hkc

lemma getChunk_ok {m : BlockMap} {st : Store} (h : store_ok m st)
    (k : Int × Int × Int) (i : Nat) (hne : getChunk st k i ≠ 0) :
    getChunk st k i ∈ m.map Prod.snd := by
  unfold getChunk at hne ⊢
  cases hf : st.find? (fun kc => kc.1 = k) with
  | none =>
    rw [hf] at hne
    simp at hne
  | some kc =>
    rw [hf] at hne
    dsimp only at hne ⊢
    exact h kc (List.mem_of_find?_eq_some hf) i hne

lemma set_block_ok {m : BlockMap} {st : Store} (h : store_ok m st)
    (x y z : Int) {b : Nat} (hb : b ≠ 0 → b ∈ m.map Prod.snd) :
    store_ok m (set_block st x y z b) := by
  intro kc hkc i hne
  unfold set_block at hkc
  rcases List.mem_cons.mp hkc with hkc | hkc
  · subst hkc
    dsimp only at hne ⊢
    by_cases hi : i = localIndex x y z
    · rw [if_pos hi] at hne ⊢
      exact hb hne
    · rw [if_neg hi] at hne ⊢
      exact getChunk_ok h _ i hne
  · exact h kc (List.mem_of_mem_filter hkc) i hne

lemma store_ok_mono {m m' : BlockMap} {st : Store}
    (hsub : ∀ v ∈ m.map Prod.snd, v ∈ m'.map Prod.snd) (h : store_ok m st) :
    store_ok m' st :=
  fun kc hkc i hne => hsub _ (h kc hkc i hne)

/-- The assembly phase keeps `store_ok`: each write stores the id returned
by the interning step, and the table only grows. -/
lemma run_events_ok (es : List Event) (s : BlockMap × Store)
    (h : store_ok s.1 s.2) :
    store_ok (run_events s es).1 (run_events s es).2 := by
  induction es generalizing s with
  | nil => exact h
  | cons e es ih =>
    rw [run_events_cons]
    apply ih
    dsimp only [apply_event]
    apply set_block_ok
    · exact store_ok_mono (fun v hv => get_block_byte_vals_mono hv e.2) h
    · intro hne
      exact get_block_byte_val_mem s.1 e.2

lemma run_events_wf (es : List Event) (s : BlockMap × Store)
    (h : s.1.map Prod.snd = List.range s.1.length) :
    (run_events s es).1.map Prod.snd
      = List.range (run_events s es).1.length := by
  induction es generalizing s with
  | nil => exact h
  | cons e es ih =>
    rw [run_events_cons]
    exact ih _ (get_block_byte_wf h e.2)

/-- With a well-formed table, an id that occurs in the chunk and is a table
value has exactly one mapping-section entry. -/
lemma present_count_one {m : BlockMap}
    (hwf : m.map Prod.snd = List.range m.length)
    {block : List Nat} {v : Nat} (hv : v ∈ m.map Prod.snd) (hb : v ∈ block) :
    ((present_block_map m block).map Prod.snd).count v = 1 := by
  have h1 : present_block_map m block
      = m.filter ((fun w => decide (w ∈ block)) ∘ Prod.snd) := rfl
  rw [h1, ← List.filter_map, hwf]
  apply List.count_eq_one_of_mem
  · exact (List.nodup_range _).filter _
  · apply List.mem_filter.mpr
    refine ⟨?_, by simpa using hb⟩
    rw [← hwf]
    exact hv

lemma localIndex_lt (x y z : Int) : localIndex x y z < 4096 := by
  unfold localIndex
  have h1 := fmod16_nonneg x
  have h2 := fmod16_nonneg y
  have h3 := fmod16_nonneg z
  have h4 := fmod16_lt x
  have h5 := fmod16_lt y
  have h6 := fmod16_lt z
  omega

end Yearn

/-- **C10.** Invariant kept by the whole assembly phase: starting from the
initial table `{"air": 0}` and the empty store, after replaying ANY list of
assembly write events, every non-zero byte readable from any chunk of the
world map is an id previously returned by the interning function (a value
of the block-type table), and at serialization time that id has exactly one
mapping-section entry in its chunk's `present_block_map`. -/
theorem C10_interned_ids_invariant (es : List Yearn.Event) (x y z : Int) :
    Yearn.get_block (Yearn.run_events (Yearn.block_map, []) es).2 x y z ≠ 0 →
    Yearn.get_block (Yearn.run_events (Yearn.block_map, []) es).2 x y z
        ∈ (Yearn.run_events (Yearn.block_map, []) es).1.map Prod.snd ∧
    ((Yearn.present_block_map (Yearn.run_events (Yearn.block_map, []) es).1
        (Yearn.chunk_list
          (Yearn.getChunk (Yearn.run_events (Yearn.block_map, []) es).2
            (Yearn.chunkKey x y z)))).map Prod.snd).count
      (Yearn.get_block (Yearn.run_events (Yearn.block_map, []) es).2 x y z)
      = 1 := by
  intro hne
  have hok := Yearn.run_events_ok es (Yearn.block_map, [])
    (Yearn.store_ok_empty Yearn.block_map)
  have hwf := Yearn.run_events_wf es (Yearn.block_map, []) (by rfl)
  have hv : Yearn.get_block (Yearn.run_events (Yearn.block_map, []) es).2 x y z
      ∈ (Yearn.run_events (Yearn.block_map, []) es).1.map Prod.snd :=
    Yearn.getChunk_ok hok (Yearn.chunkKey x y z) (Yearn.localIndex x y z) hne
  refine ⟨hv, ?_⟩
  apply Yearn.present_count_one hwf hv
  unfold Yearn.chunk_list
  exact List.mem_map.mpr ⟨Yearn.localIndex x y z,
    List.mem_range.mpr (Yearn.localIndex_lt x y z), rfl⟩

/-- Witness for C10: a single write of `"default:stone"` at the origin. -/
theorem C10_interned_ids_invariant_witness :
    Yearn.get_block
        (Yearn.run_events (Yearn.block_map, []) [((0, 0, 0), "default:stone")]).2
        0 0 0
      ∈ (Yearn.run_events (Yearn.block_map, [])
          [((0, 0, 0), "default:stone")]).1.map Prod.snd ∧
    ((Yearn.present_block_map
        (Yearn.run_events (Yearn.block_map, []) [((0, 0, 0), "default:stone")]).1
        (Yearn.chunk_list
          (Yearn.getChunk
            (Yearn.run_events (Yearn.block_map, [])
              [((0, 0, 0), "default:stone")]).2
            (Yearn.chunkKey 0 0 0)))).map Prod.snd).count
      (Yearn.get_block
        (Yearn.run_events (Yearn.block_map, []) [((0, 0, 0), "default:stone")]).2
        0 0 0) = 1 :=
  C10_interned_ids_invariant [((0, 0, 0), "default:stone")] 0 0 0 (by decide)

namespace Yearn

/-- `pos = z * 4096 * 4096 + y * 4096 + x` from `write_block` (yearn.py
line 287). -/
def write_block_pos (x y z : Int) : Int :=
  z * 4096 * 4096 + y * 4096 + x

/-- `write_block(x, y, z, block)`: the (key, serialized value) pair that is
handed to the external key-value put
(`db.execute("insert or replace into blocks (pos, data) …")`). -/
def write_block (compress : List Nat → List Nat) (m : BlockMap)
    (x y z : Int) (block : List Nat) : Int × Option (List Nat) :=
  (write_block_pos x y z, block_to_binary compress m block)

end Yearn

/-- Transcribed from the words of claim C9 (spec §4.6): the target format's
convention of computing the key from signed coordinates in unsigned 64-bit
arithmetic — fold the value into `0 ≤ u < 2^64` and reinterpret it as a
signed 64-bit integer. -/
def SpecC9.signed_fold_64 (v : Int) : Int :=
  let u := v % 18446744073709551616
  if u < 9223372036854775808 then u else u - 18446744073709551616

/-- **C9.** For every chunk key `(x, y, z)` in the target engine's
coordinate range, the writer computes the single position key as
`z * M² + y * M + x` for the fixed modulus `M = 4096`; this value agrees
with the coordinates-treated-as-signed, folded-into-unsigned-64-bit
convention of the target format; and `write_block` hands exactly this key
together with the serialized bytes to the external key-value put. -/
theorem C9_position_key (x y z : Int)
    (hx1 : -2048 ≤ x) (hx2 : x ≤ 2047) (hy1 : -2048 ≤ y) (hy2 : y ≤ 2047)
    (hz1 : -2048 ≤ z) (hz2 : z ≤ 2047) :
    Yearn.write_block_pos x y z = z * 4096 * 4096 + y * 4096 + x ∧
    SpecC9.signed_fold_64 (z * 4096 * 4096 + y * 4096 + x)
      = Yearn.write_block_pos x y z ∧
    ∀ (compress : List Nat → List Nat) (m : Yearn.BlockMap) (block : List Nat),
      Yearn.write_block compress m x y z block
        = (Yearn.write_block_pos x y z,
            Yearn.block_to_binary compress m block) := by
  refine ⟨rfl, ?_, fun compress m block => rfl⟩
  unfold SpecC9.signed_fold_64 Yearn.write_block_pos
  dsimp only
  omega

/-- Witness for C9 at the chunk key (−1, 0, −2048). -/
theorem C9_position_key_witness :
    Yearn.write_block_pos (-1) 0 (-2048)
        = (-2048) * 4096 * 4096 + 0 * 4096 + (-1) ∧
    SpecC9.signed_fold_64 ((-2048) * 4096 * 4096 + 0 * 4096 + (-1))
      = Yearn.write_block_pos (-1) 0 (-2048) ∧
    ∀ (compress : List Nat → List Nat) (m : Yearn.BlockMap) (block : List Nat),
      Yearn.write_block compress m (-1) 0 (-2048) block
        = (Yearn.write_block_pos (-1) 0 (-2048),
            Yearn.block_to_binary compress m block) :=
  C9_position_key (-1) 0 (-2048) (by norm_num) (by norm_num) (by norm_num)
    (by norm_num) (by norm_num) (by norm_num)
